import Mathlib

/-!
# dvs_sepia: the DVS128 acquisition engine

A shallow embedding of `source/dvs_sepia.hpp`: the word decoder and the
acquisition loop of `specialized_camera`, the construction of the bias payload
and the USB setup sequence of the constructor.

Conventions.
* A `uint8_t` is a `Fin 256`; C++ promotes it to `int` before `&`, `|`, `>>`,
  so the operators below act on its value as a natural number.
* `uint64_t` and `uint16_t` values are natural numbers reduced modulo `2^64`
  and `2^16` where the source assigns them.
* The USB library, the FIFO of `sepia::specialized_camera` and the validated
  parameters are outside this header; they enter as the results of their calls.
-/

namespace dvs_sepia

/-- A byte of the transfer buffer (`uint8_t`). -/
abbrev Byte := Fin 256

/-- The event type `sepia::dvs_event`: `uint64_t t`, `uint16_t x`, `uint16_t y`,
`bool is_increase`. -/
structure dvs_event where
  t : Nat
  x : Nat
  y : Nat
  is_increase : Bool
  deriving DecidableEq, Repr

/-- The value returned by `camera::width()`. -/
def width : Nat := 128

/-- The value returned by `camera::height()`. -/
def height : Nat := 128

/-- The test of the first branch of the word loop,
`(*std::next(byte_iterator, 3) & 0x80) == 0x80`. -/
def is_overflow_marker (b3 : Byte) : Bool := b3.val &&& 0x80 == 0x80

/-- The test of the second branch, `(*std::next(byte_iterator, 3) & 0x40) == 0x40`. -/
def is_reset_marker (b3 : Byte) : Bool := b3.val &&& 0x40 == 0x40

/-- The test of the third branch, `(*std::next(byte_iterator, 1) & 0x80) == 0`. -/
def is_pixel_word (b1 : Byte) : Bool := b1.val &&& 0x80 == 0

/-- The event assembled by the third branch of the word loop from the four bytes
at `byte_iterator` and the running `t_offset`. -/
def pixel_event (t_offset : Nat) (b0 b1 b2 b3 : Byte) : dvs_event :=
  { t := ((b2.val ||| (b3.val <<< 8)) + t_offset) % 2 ^ 64
    x := (128 - (b0.val >>> 1)) % 2 ^ 16
    y := (b1.val &&& 0x7f) % 2 ^ 16
    is_increase := b0.val &&& 1 == 0 }

/-- One pass through the body of the word loop, without the call to `push`:
the new value of `t_offset` and the event handed to `push`, if any. -/
def decode_word (t_offset : Nat) (b0 b1 b2 b3 : Byte) : Nat × Option dvs_event :=
  if is_overflow_marker b3 then
    ((t_offset + 0x4000) % 2 ^ 64, none)
  else if is_reset_marker b3 then
    (0, none)
  else if is_pixel_word b1 then
    (t_offset, some (pixel_event t_offset b0 b1 b2 b3))
  else
    (t_offset, none)

/-- What the acquisition thread can hand to `_handle_exception`:
`std::runtime_error("computer's FIFO overflow")` or `sepia::device_disconnected("DVS")`. -/
inductive acquisition_error where
  | fifo_overflow
  | device_disconnected
  deriving DecidableEq, Repr

/-- The variables of the acquisition thread together with a record of what it did:
`t_offset`, every call to `push` with the value it returned, the number of words
the word loop has examined and the number of bulk transfers made. -/
structure loop_state where
  t_offset : Nat
  pushes : List (dvs_event × Bool)
  words : Nat
  reads : Nat
  deriving DecidableEq, Repr

/-- The state of the thread before the first iteration (`t_offset = 0`). -/
def loop_state.initial : loop_state :=
  { t_offset := 0, pushes := [], words := 0, reads := 0 }

/-- The events the queue accepted, in the order of the calls. -/
def loop_state.accepted (st : loop_state) : List dvs_event :=
  (st.pushes.filter (fun p => p.2)).map (fun p => p.1)

/-- The word loop over the transferred bytes, four at a time. `accept n` is the
value returned by the call to `push` that follows `n` earlier calls. The result
is the state when the loop is left and the exception thrown, if one was. -/
def word_loop (accept : Nat → Bool) : List Byte → loop_state → loop_state × Option acquisition_error
  | b0 :: b1 :: b2 :: b3 :: rest, st =>
    match decode_word st.t_offset b0 b1 b2 b3 with
    | (t_offset, none) =>
      word_loop accept rest { st with t_offset := t_offset, words := st.words + 1 }
    | (t_offset, some event) =>
      if accept st.pushes.length then
        word_loop accept rest
          { st with t_offset := t_offset, pushes := st.pushes ++ [(event, true)],
                    words := st.words + 1 }
      else
        ({ st with t_offset := t_offset, pushes := st.pushes ++ [(event, false)],
                   words := st.words + 1 },
         some acquisition_error.fifo_overflow)
  | _, st => (st, none)

/-- The constant `LIBUSB_ERROR_TIMEOUT` of `libusb.h`. -/
def LIBUSB_ERROR_TIMEOUT : Int := -7

/-- What one call to `libusb_bulk_transfer` leaves behind: its return value, the
count written to `transferred` and the contents of `bytes`. The count is the
number of bytes the library has written to `bytes`, so it is not negative; on
such a value the `%` of `int32_t` is the remainder of natural numbers. -/
structure bulk_result where
  error : Int
  transferred : Nat
  bytes : List Byte
  deriving DecidableEq, Repr

/-- The test on the result of the bulk transfer,
`(error == 0 || error == LIBUSB_ERROR_TIMEOUT) && transferred % 4 == 0`. -/
def transfer_ok (r : bulk_result) : Bool :=
  (r.error == 0 || r.error == LIBUSB_ERROR_TIMEOUT) && r.transferred % 4 == 0

/-- One iteration of the `while` loop: the bulk transfer, then either the word
loop over the first `transferred` bytes or `throw sepia::device_disconnected`. -/
def acquisition_iteration (accept : Nat → Bool) (r : bulk_result) (st : loop_state) :
    loop_state × Option acquisition_error :=
  let st1 := { st with reads := st.reads + 1 }
  if transfer_ok r then
    word_loop accept (r.bytes.take r.transferred) st1
  else
    (st1, some acquisition_error.device_disconnected)

/-- What is left when the thread function returns: the final state and the
exceptions handed to `_handle_exception`, in order. -/
structure loop_outcome where
  state : loop_state
  handled : List acquisition_error
  deriving DecidableEq, Repr

/-- The `while` loop inside `try`/`catch`. The list holds the results of the bulk
transfers made while `_acquisition_running` is read as true; when it is exhausted
the flag is read as false and the loop ends. An exception leaves the loop and
reaches `_handle_exception` in the `catch` block. -/
def acquisition_loop_from (accept : Nat → Bool) : List bulk_result → loop_state → loop_outcome
  | [], st => { state := st, handled := [] }
  | r :: rest, st =>
    match acquisition_iteration accept r st with
    | (st1, none) => acquisition_loop_from accept rest st1
    | (st1, some e) => { state := st1, handled := [e] }

/-- The thread function started by the constructor. -/
def acquisition_loop (accept : Nat → Bool) (transfers : List bulk_result) : loop_outcome :=
  acquisition_loop_from accept transfers loop_state.initial

/-- Four consecutive bytes of the transfer buffer, as the word loop reads them. -/
structure word where
  b0 : Byte
  b1 : Byte
  b2 : Byte
  b3 : Byte
  deriving DecidableEq, Repr

/-- The bytes of a sequence of words, in buffer order. -/
def bytes_of_words : List word → List Byte
  | [] => []
  | w :: ws => w.b0 :: w.b1 :: w.b2 :: w.b3 :: bytes_of_words ws

/-- The word loop with the calls to `push` left out: the final `t_offset` and the
events the loop hands to `push` when every call succeeds, in word order. -/
def decode_words : Nat → List word → Nat × List dvs_event
  | t_offset, [] => (t_offset, [])
  | t_offset, w :: ws =>
    match decode_word t_offset w.b0 w.b1 w.b2 w.b3 with
    | (t_offset1, none) => decode_words t_offset1 ws
    | (t_offset1, some event) =>
      ((decode_words t_offset1 ws).1, event :: (decode_words t_offset1 ws).2)

/-- The statement that decoding these words from `t_offset` never leaves the range
of `uint64_t`: neither `t_offset += 0x4000` nor the sum that gives `event.t`
exceeds `2^64 - 1` before it is reduced. -/
def no_wrap : Nat → List word → Bool
  | _, [] => true
  | t_offset, w :: ws =>
    (if is_overflow_marker w.b3 then decide (t_offset + 0x4000 < 2 ^ 64)
     else if is_reset_marker w.b3 then true
     else if is_pixel_word w.b1 then
       decide ((w.b2.val ||| (w.b3.val <<< 8)) + t_offset < 2 ^ 64)
     else true)
    && no_wrap (decode_word t_offset w.b0 w.b1 w.b2 w.b3).1 ws

/-! ## The setup of the camera -/

/-- The table returned by `camera::name_to_address()`, in the order of the source. -/
def name_to_address : List (String × Nat) :=
  [("first_stage_amplifier_cascode", 0x00),
   ("injected_ground", 0x01),
   ("chip_request_pull_down", 0x02),
   ("x_arbiter_request_pull_up", 0x03),
   ("off_event_threshold", 0x04),
   ("passive_load_pull_down", 0x05),
   ("refractory_period", 0x06),
   ("y_arbiter_request_pull_up", 0x07),
   ("on_event_threshold", 0x08),
   ("second_stage_amplifier", 0x09),
   ("source_follower", 0x0a),
   ("photoreceptor", 0x0b)]

/-- The numbers of `camera::default_parameter()`, by name. -/
def default_parameter : String → Nat
  | "first_stage_amplifier_cascode" => 1992
  | "injected_ground" => 1108364
  | "chip_request_pull_down" => 16777215
  | "x_arbiter_request_pull_up" => 8159221
  | "off_event_threshold" => 132
  | "passive_load_pull_down" => 309590
  | "refractory_period" => 969
  | "y_arbiter_request_pull_up" => 16777215
  | "on_event_threshold" => 209996
  | "second_stage_amplifier" => 13125
  | "source_follower" => 271
  | "photoreceptor" => 217
  | _ => 0

/-- The conversion `static_cast<uint8_t>`. -/
def to_uint8 (n : Nat) : Byte := ⟨n % 256, Nat.mod_lt n (by decide)⟩

/-- The body of the loop over `name_to_address()`: the three assignments to
`biases` for one name, with `value` the `uint32_t` read from the parameter. -/
def set_bias (biases : List Byte) (value : Nat) (address : Nat) : List Byte :=
  ((biases.set (address * 3) (to_uint8 ((value >>> 16) &&& 0xff))).set
      (address * 3 + 1) (to_uint8 ((value >>> 8) &&& 0xff))).set
    (address * 3 + 2) (to_uint8 ((value >>> 8) &&& 0xff))

/-- The array `biases` after the loop over `name_to_address()`. `get_number name`
is the validated number of the parameter; the array has `12 * 3` bytes, each of
which the loop assigns. -/
def bias_payload (get_number : String → Nat) : List Byte :=
  name_to_address.foldl
    (fun biases name_and_address =>
      set_bias biases (get_number name_and_address.1 % 2 ^ 32) name_and_address.2)
    (List.replicate (12 * 3) 0)

/-- What the USB library answers for one entry of the device list. -/
structure usb_device where
  descriptor_error : Int
  idVendor : Nat
  idProduct : Nat
  open_error : Int
  claim_error : Int
  bytes_read : Int
  serial : String
  deriving DecidableEq, Repr

/-- What the USB library answers during one construction: the return value of
`libusb_init`, the device list, and the return values of `libusb_reset_device` and
of the two control transfers. -/
structure usb_bus where
  init_error : Int
  devices : List usb_device
  reset_error : Int
  biases_transfer : Int
  start_transfer : Int
  deriving DecidableEq, Repr

/-- The calls the constructor makes, in the order it makes them. -/
inductive usb_call where
  | libusb_init
  | libusb_get_device_list
  | libusb_get_device_descriptor (index : Nat)
  | libusb_open (index : Nat)
  | libusb_claim_interface (index : Nat)
  | libusb_get_string_descriptor_ascii (index : Nat)
  | libusb_release_interface
  | libusb_close
  | libusb_free_device_list
  | libusb_exit
  | libusb_alloc_transfer
  | libusb_reset_device
  | libusb_control_transfer (request : Nat) (data : List Byte)
  | libusb_free_transfer
  | start_acquisition_loop
  deriving DecidableEq, Repr

/-- The exceptions the constructor throws: `std::logic_error` of `check_usb_error`
(the message and the code handed to `libusb_strerror`), `std::logic_error`
("retrieving the serial failed") and `sepia::no_device_connected`. -/
inductive construction_error where
  | usb_error (message : String) (error : Int)
  | retrieving_the_serial_failed
  | no_device_connected
  deriving DecidableEq, Repr

/-- The calls made so far and what they leave held: the USB context, the open
device handle, the claimed interface, the allocated transfer, the running thread. -/
structure usb_state where
  calls : List usb_call
  context : Bool
  handle : Bool
  interface : Bool
  transfer : Bool
  thread : Bool
  deriving DecidableEq, Repr

/-- The state before the constructor runs. -/
def usb_state.initial : usb_state :=
  { calls := [], context := false, handle := false, interface := false, transfer := false,
    thread := false }

/-- The function `camera::check_usb_error`: it throws when `error < 0`. -/
def check_usb_error (error : Int) (message : String) : Except construction_error Unit :=
  if error < 0 then Except.error (construction_error.usb_error message error) else Except.ok ()

/-- The loop over the device list in the constructor, from entry `index` on. The
result is `device_found`, or the exception thrown inside the loop. -/
def find_device (serial : String) :
    List usb_device → Nat → usb_state → usb_state × Except construction_error Bool
  | [], _, st => (st, Except.ok false)
  | d :: ds, index, st =>
    let st1 := { st with calls := st.calls ++ [usb_call.libusb_get_device_descriptor index] }
    if d.descriptor_error = 0 then
      if d.idVendor = 5418 ∧ d.idProduct = 33792 then
        let st2 := { st1 with calls := st1.calls ++ [usb_call.libusb_open index],
                              handle := decide (0 ≤ d.open_error) }
        match check_usb_error d.open_error "opening the device" with
        | Except.error e => (st2, Except.error e)
        | Except.ok _ =>
          let st3 := { st2 with calls := st2.calls ++ [usb_call.libusb_claim_interface index],
                                interface := decide (d.claim_error = 0) }
          if d.claim_error = 0 then
            if serial.isEmpty then (st3, Except.ok true)
            else
              let st4 := { st3 with
                calls := st3.calls ++ [usb_call.libusb_get_string_descriptor_ascii index] }
              if d.bytes_read ≤ 0 then
                (st4, Except.error construction_error.retrieving_the_serial_failed)
              else if d.serial = serial then (st4, Except.ok true)
              else
                find_device serial ds (index + 1)
                  { st4 with
                    calls := st4.calls ++ [usb_call.libusb_release_interface, usb_call.libusb_close],
                    interface := false, handle := false }
          else
            find_device serial ds (index + 1)
              { st3 with calls := st3.calls ++ [usb_call.libusb_close], handle := false }
      else find_device serial ds (index + 1) st1
    else find_device serial ds (index + 1) st1

/-- The body of the constructor of `specialized_camera` after the parameters are
loaded: the calls it makes, what is held when it returns or throws, and the
exception if it throws. -/
def construct (bus : usb_bus) (serial : String) (get_number : String → Nat) :
    usb_state × Except construction_error Unit :=
  let st0 := { usb_state.initial with calls := [usb_call.libusb_init],
                                      context := decide (0 ≤ bus.init_error) }
  match check_usb_error bus.init_error "initializing the USB context" with
  | Except.error e => (st0, Except.error e)
  | Except.ok _ =>
    match find_device serial bus.devices 0
        { st0 with calls := st0.calls ++ [usb_call.libusb_get_device_list] } with
    | (st1, Except.error e) => (st1, Except.error e)
    | (st1, Except.ok device_found) =>
      let st2 := { st1 with calls := st1.calls ++ [usb_call.libusb_free_device_list] }
      if !device_found then
        ({ st2 with calls := st2.calls ++ [usb_call.libusb_exit], context := false },
         Except.error construction_error.no_device_connected)
      else
        let st3 := { st2 with
          calls := st2.calls ++ [usb_call.libusb_alloc_transfer, usb_call.libusb_reset_device],
          transfer := true }
        match check_usb_error bus.reset_error "resetting the device" with
        | Except.error e => (st3, Except.error e)
        | Except.ok _ =>
          let st4 := { st3 with
            calls := st3.calls ++ [usb_call.libusb_control_transfer 184 (bias_payload get_number)] }
          match check_usb_error bus.biases_transfer "sending a control packet" with
          | Except.error e => (st4, Except.error e)
          | Except.ok _ =>
            let st5 := { st4 with calls := st4.calls ++ [usb_call.libusb_control_transfer 179 []] }
            match check_usb_error bus.start_transfer "starting the data flow" with
            | Except.error e => (st5, Except.error e)
            | Except.ok _ =>
              ({ st5 with calls := st5.calls ++ [usb_call.start_acquisition_loop],
                          thread := true },
               Except.ok ())

/-! ## Bit tests on bytes -/

theorem byte_land_0x7f (b : Byte) : b.val &&& 0x7f = b.val % 128 :=
  Nat.and_pow_two_sub_one_eq_mod b.val 7

theorem byte_shr_1 (b : Byte) : b.val >>> 1 = b.val / 2 := by
  simp [Nat.shiftRight_eq_div_pow]

theorem byte_lor_shl_8 (b2 b3 : Byte) : b2.val ||| (b3.val <<< 8) = b2.val + 256 * b3.val := by
  have h := @Nat.mul_add_lt_is_or 8 b2.val (by simp) b3.val
  rw [Nat.shiftLeft_eq, Nat.lor_comm, Nat.mul_comm, ← h]
  omega

theorem byte_testBit_7 (b : Byte) : b.val.testBit 7 = decide (128 ≤ b.val) := by
  have hb := b.isLt
  rw [Nat.testBit_to_div_mod]
  apply decide_eq_decide.mpr
  norm_num
  omega

theorem byte_testBit_6 (b : Byte) : b.val.testBit 6 = decide (64 ≤ b.val % 128) := by
  have hb := b.isLt
  rw [Nat.testBit_to_div_mod]
  apply decide_eq_decide.mpr
  norm_num
  omega

theorem is_overflow_marker_eq (b3 : Byte) : is_overflow_marker b3 = b3.val.testBit 7 := by
  have h := Nat.and_two_pow b3.val 7
  norm_num at h
  unfold is_overflow_marker
  cases hb : b3.val.testBit 7 <;> simp [h, hb]

theorem is_reset_marker_eq (b3 : Byte) : is_reset_marker b3 = b3.val.testBit 6 := by
  have h := Nat.and_two_pow b3.val 6
  norm_num at h
  unfold is_reset_marker
  cases hb : b3.val.testBit 6 <;> simp [h, hb]

theorem is_pixel_word_eq (b1 : Byte) : is_pixel_word b1 = !b1.val.testBit 7 := by
  have h := Nat.and_two_pow b1.val 7
  norm_num at h
  unfold is_pixel_word
  cases hb : b1.val.testBit 7 <;> simp [h, hb]

/-! ## The word decoder -/

theorem pixel_event_fields (t_offset : Nat) (b0 b1 b2 b3 : Byte) :
    pixel_event t_offset b0 b1 b2 b3 =
      { t := ((b2.val ||| (b3.val <<< 8)) + t_offset) % 2 ^ 64
        x := 128 - (b0.val >>> 1)
        y := b1.val &&& 0x7f
        is_increase := decide (b0.val &&& 1 = 0) } := by
  have h0 := b0.isLt
  have h1 := b1.isLt
  unfold pixel_event
  rw [byte_land_0x7f, byte_shr_1]
  congr 1
  · omega
  · omega

theorem decode_word_overflow (t_offset : Nat) (b0 b1 b2 b3 : Byte)
    (h7 : b3.val.testBit 7 = true) :
    decode_word t_offset b0 b1 b2 b3 = ((t_offset + 0x4000) % 2 ^ 64, none) := by
  simp [decode_word, is_overflow_marker_eq, h7]

theorem decode_word_reset (t_offset : Nat) (b0 b1 b2 b3 : Byte)
    (h7 : b3.val.testBit 7 = false) (h6 : b3.val.testBit 6 = true) :
    decode_word t_offset b0 b1 b2 b3 = (0, none) := by
  simp [decode_word, is_overflow_marker_eq, is_reset_marker_eq, h7, h6]

theorem decode_word_pixel (t_offset : Nat) (b0 b1 b2 b3 : Byte)
    (h7 : b3.val.testBit 7 = false) (h6 : b3.val.testBit 6 = false)
    (h1 : b1.val.testBit 7 = false) :
    decode_word t_offset b0 b1 b2 b3 = (t_offset, some (pixel_event t_offset b0 b1 b2 b3)) := by
  simp [decode_word, is_overflow_marker_eq, is_reset_marker_eq, is_pixel_word_eq, h7, h6, h1]

theorem word_loop_nil (accept : Nat → Bool) (st : loop_state) :
    word_loop accept [] st = (st, none) := by
  simp [word_loop]

theorem word_loop_skip (accept : Nat → Bool) (st : loop_state) (b0 b1 b2 b3 : Byte)
    (rest : List Byte) (t_offset : Nat)
    (h : decode_word st.t_offset b0 b1 b2 b3 = (t_offset, none)) :
    word_loop accept (b0 :: b1 :: b2 :: b3 :: rest) st =
      word_loop accept rest { st with t_offset := t_offset, words := st.words + 1 } := by
  rw [word_loop, h]

theorem word_loop_push (accept : Nat → Bool) (st : loop_state) (b0 b1 b2 b3 : Byte)
    (rest : List Byte) (t_offset : Nat) (event : dvs_event)
    (h : decode_word st.t_offset b0 b1 b2 b3 = (t_offset, some event))
    (ha : accept st.pushes.length = true) :
    word_loop accept (b0 :: b1 :: b2 :: b3 :: rest) st =
      word_loop accept rest
        { st with t_offset := t_offset, pushes := st.pushes ++ [(event, true)],
                  words := st.words + 1 } := by
  rw [word_loop, h]
  simp [ha]

theorem word_loop_overflow (accept : Nat → Bool) (st : loop_state) (b0 b1 b2 b3 : Byte)
    (rest : List Byte) (t_offset : Nat) (event : dvs_event)
    (h : decode_word st.t_offset b0 b1 b2 b3 = (t_offset, some event))
    (ha : accept st.pushes.length = false) :
    word_loop accept (b0 :: b1 :: b2 :: b3 :: rest) st =
      ({ st with t_offset := t_offset, pushes := st.pushes ++ [(event, false)],
                 words := st.words + 1 },
       some acquisition_error.fifo_overflow) := by
  rw [word_loop, h]
  simp [ha]

/-- C1: a word whose byte 3 has bits 7 and 6 clear and whose byte 1 has bit 7 clear
is decoded into one event with `t = (b2 | (b3 << 8)) + t_offset` modulo `2^64`,
`x = 128 - (b0 >> 1)`, `y = b1 & 0x7f` and `is_increase = ((b0 & 1) == 0)`, the
offset is left as it was, and the word loop over these four bytes calls `push`
exactly once, with that event; the word `00 00 10 00` at offset 0 gives
`{t = 0x10, x = 128, y = 0, is_increase = true}`. -/
theorem C1_pixel_word_emits_one_event (accept : Nat → Bool) (st : loop_state)
    (b0 b1 b2 b3 : Byte)
    (h7 : b3.val.testBit 7 = false) (h6 : b3.val.testBit 6 = false)
    (h1 : b1.val.testBit 7 = false) :
    decode_word st.t_offset b0 b1 b2 b3 =
        (st.t_offset,
         some { t := ((b2.val ||| (b3.val <<< 8)) + st.t_offset) % 2 ^ 64
                x := 128 - (b0.val >>> 1)
                y := b1.val &&& 0x7f
                is_increase := decide (b0.val &&& 1 = 0) })
      ∧ (word_loop accept [b0, b1, b2, b3] st).1.pushes =
          st.pushes ++ [({ t := ((b2.val ||| (b3.val <<< 8)) + st.t_offset) % 2 ^ 64
                           x := 128 - (b0.val >>> 1)
                           y := b1.val &&& 0x7f
                           is_increase := decide (b0.val &&& 1 = 0) },
                         accept st.pushes.length)]
      ∧ (word_loop accept [b0, b1, b2, b3] st).1.t_offset = st.t_offset
      ∧ decode_word 0 0x00 0x00 0x10 0x00 =
          (0, some { t := 0x10, x := 128, y := 0, is_increase := true }) := by
  have hd := decode_word_pixel st.t_offset b0 b1 b2 b3 h7 h6 h1
  rw [pixel_event_fields] at hd
  refine ⟨hd, ?_, ?_, by decide⟩
  · cases ha : accept st.pushes.length
    · rw [word_loop_overflow accept st b0 b1 b2 b3 [] _ _ hd ha]
    · rw [word_loop_push accept st b0 b1 b2 b3 [] _ _ hd ha, word_loop_nil]
  · cases ha : accept st.pushes.length
    · rw [word_loop_overflow accept st b0 b1 b2 b3 [] _ _ hd ha]
    · rw [word_loop_push accept st b0 b1 b2 b3 [] _ _ hd ha, word_loop_nil]

/-- Witness of C1 at the word `03 25 10 02` with offset `0x4000`. -/
theorem C1_pixel_word_emits_one_event_witness :
    decode_word 0x4000 0x03 0x25 0x10 0x02 =
      (0x4000, some { t := 0x4210, x := 127, y := 0x25, is_increase := false }) :=
  (C1_pixel_word_emits_one_event (fun _ => true)
    { t_offset := 0x4000, pushes := [], words := 0, reads := 0 } 0x03 0x25 0x10 0x02
    (by decide) (by decide) (by decide)).1

/-- Counterexample to C2 as stated: at `t_offset = 2^64 - 0x4000` the overflow
marker `00 00 00 80` leaves `t_offset = 0`, not `t_offset + 0x4000`. -/
theorem C2_counterexample_wraps_to_zero :
    (0x80 : Byte).val.testBit 7 = true
      ∧ 2 ^ 64 - 0x4000 < 2 ^ 64
      ∧ decode_word (2 ^ 64 - 0x4000) 0x00 0x00 0x00 0x80 = (0, none)
      ∧ (decode_word (2 ^ 64 - 0x4000) 0x00 0x00 0x00 0x80).1 ≠ (2 ^ 64 - 0x4000) + 0x4000 := by
  refine ⟨by decide, by decide, ?_, ?_⟩
  · rw [decode_word_overflow _ _ _ _ _ (by decide)]
    norm_num
  · rw [decode_word_overflow _ _ _ _ _ (by decide)]
    norm_num

/-- C2, amended: a word whose byte 3 has bit 7 set adds `0x4000` to `t_offset` in
64-bit unsigned arithmetic (modulo `2^64`) and no event reaches `push`, whatever
the other bits are; the new offset is `t_offset + 0x4000` whenever that sum is
below `2^64`. -/
theorem C2_overflow_marker_adds_modulo (accept : Nat → Bool) (st : loop_state)
    (b0 b1 b2 b3 : Byte) (h7 : b3.val.testBit 7 = true) :
    decode_word st.t_offset b0 b1 b2 b3 = ((st.t_offset + 0x4000) % 2 ^ 64, none)
      ∧ word_loop accept [b0, b1, b2, b3] st =
          ({ st with t_offset := (st.t_offset + 0x4000) % 2 ^ 64, words := st.words + 1 }, none)
      ∧ (st.t_offset + 0x4000 < 2 ^ 64 →
          (word_loop accept [b0, b1, b2, b3] st).1.t_offset = st.t_offset + 0x4000) := by
  have hd := decode_word_overflow st.t_offset b0 b1 b2 b3 h7
  have hl := word_loop_skip accept st b0 b1 b2 b3 [] _ hd
  rw [word_loop_nil] at hl
  refine ⟨hd, hl, ?_⟩
  intro hlt
  rw [hl]
  exact Nat.mod_eq_of_lt hlt

/-- Witness of the amended C2 at the word `ff ff ff c0` with offset `0x8000`. -/
theorem C2_overflow_marker_adds_modulo_witness :
    (word_loop (fun _ => false) [0xff, 0xff, 0xff, 0xc0]
        { t_offset := 0x8000, pushes := [], words := 0, reads := 1 }).1.t_offset
      = 0x8000 + 0x4000 :=
  (C2_overflow_marker_adds_modulo (fun _ => false)
    { t_offset := 0x8000, pushes := [], words := 0, reads := 1 } 0xff 0xff 0xff 0xc0
    (by decide)).2.2 (by decide)

/-- C3: a word whose byte 3 has bit 7 clear and bit 6 set puts `t_offset` to 0 and
no event reaches `push`, whatever bytes 0, 1, 2 and the current offset are. -/
theorem C3_reset_marker_clears_offset (accept : Nat → Bool) (st : loop_state)
    (b0 b1 b2 b3 : Byte)
    (h7 : b3.val.testBit 7 = false) (h6 : b3.val.testBit 6 = true) :
    decode_word st.t_offset b0 b1 b2 b3 = (0, none)
      ∧ word_loop accept [b0, b1, b2, b3] st =
          ({ st with t_offset := 0, words := st.words + 1 }, none) := by
  have hd := decode_word_reset st.t_offset b0 b1 b2 b3 h7 h6
  have hl := word_loop_skip accept st b0 b1 b2 b3 [] _ hd
  rw [word_loop_nil] at hl
  exact ⟨hd, hl⟩

/-- Witness of C3 at the word `00 00 10 40`, whose byte 1 has bit 7 clear, with
offset `0xc000`. -/
theorem C3_reset_marker_clears_offset_witness :
    word_loop (fun _ => true) [0x00, 0x00, 0x10, 0x40]
        { t_offset := 0xc000, pushes := [], words := 0, reads := 1 }
      = ({ t_offset := 0, pushes := [], words := 1, reads := 1 }, none) :=
  (C3_reset_marker_clears_offset (fun _ => true)
    { t_offset := 0xc000, pushes := [], words := 0, reads := 1 } 0x00 0x00 0x10 0x40
    (by decide) (by decide)).2

/-- C4: a reset marker, an overflow marker and a pixel word, in this order, with
a queue that accepts the push, give exactly one call to `push`, whose event has
`t = 0x4000 + (b2 | (b3 << 8))` and the `x`, `y`, `is_increase` of the pixel
word, and leave `t_offset = 0x4000`, whatever the offset was before. -/
theorem C4_reset_overflow_pixel (accept : Nat → Bool) (st : loop_state) (r o p : word)
    (hr7 : r.b3.val.testBit 7 = false) (hr6 : r.b3.val.testBit 6 = true)
    (ho7 : o.b3.val.testBit 7 = true)
    (hp7 : p.b3.val.testBit 7 = false) (hp6 : p.b3.val.testBit 6 = false)
    (hp1 : p.b1.val.testBit 7 = false)
    (ha : accept st.pushes.length = true) :
    word_loop accept (bytes_of_words [r] ++ bytes_of_words [o] ++ bytes_of_words [p]) st =
      ({ t_offset := 0x4000
         pushes := st.pushes ++
           [({ t := 0x4000 + (p.b2.val ||| (p.b3.val <<< 8))
               x := 128 - (p.b0.val >>> 1)
               y := p.b1.val &&& 0x7f
               is_increase := decide (p.b0.val &&& 1 = 0) }, true)]
         words := st.words + 3
         reads := st.reads }, none) := by
  have hp3 : p.b3.val < 64 := by
    have h1 := byte_testBit_7 p.b3
    have h2 := byte_testBit_6 p.b3
    rw [hp7] at h1
    rw [hp6] at h2
    have h3 := of_decide_eq_false h1.symm
    have h4 := of_decide_eq_false h2.symm
    omega
  have hp2 := p.b2.isLt
  have ht : ((p.b2.val ||| (p.b3.val <<< 8)) + 0x4000) % 2 ^ 64
      = 0x4000 + (p.b2.val ||| (p.b3.val <<< 8)) := by
    rw [byte_lor_shl_8]
    omega
  simp only [bytes_of_words, List.append_nil, List.cons_append, List.nil_append]
  rw [word_loop, decode_word_reset _ _ _ _ _ hr7 hr6]
  dsimp only
  rw [word_loop, decode_word_overflow _ _ _ _ _ ho7]
  dsimp only
  rw [word_loop, decode_word_pixel _ _ _ _ _ hp7 hp6 hp1]
  dsimp only
  rw [if_pos ha, word_loop_nil, pixel_event_fields]
  rw [show (0 + 0x4000) % 2 ^ 64 = 0x4000 from by norm_num, ht]

/-- Witness of C4: the buffer `00 00 00 40 | 00 00 00 80 | 02 05 10 01` decoded
from offset `0xc000`. -/
theorem C4_reset_overflow_pixel_witness :
    word_loop (fun _ => true)
        (bytes_of_words [⟨0x00, 0x00, 0x00, 0x40⟩] ++ bytes_of_words [⟨0x00, 0x00, 0x00, 0x80⟩]
          ++ bytes_of_words [⟨0x02, 0x05, 0x10, 0x01⟩])
        { t_offset := 0xc000, pushes := [], words := 0, reads := 1 }
      = ({ t_offset := 0x4000
           pushes := [({ t := 0x4110, x := 127, y := 5, is_increase := true }, true)]
           words := 3
           reads := 1 }, none) :=
  C4_reset_overflow_pixel (fun _ => true)
    { t_offset := 0xc000, pushes := [], words := 0, reads := 1 }
    ⟨0x00, 0x00, 0x00, 0x40⟩ ⟨0x00, 0x00, 0x00, 0x80⟩ ⟨0x02, 0x05, 0x10, 0x01⟩
    (by decide) (by decide) (by decide) (by decide) (by decide) (by decide) rfl

/-- The coordinates of every pixel event: `x` runs over `1, ..., 128` and `y`
over `0, ..., 127`. -/
theorem pixel_event_coordinates (t_offset : Nat) (b0 b1 b2 b3 : Byte) :
    1 ≤ (pixel_event t_offset b0 b1 b2 b3).x
      ∧ (pixel_event t_offset b0 b1 b2 b3).x ≤ width
      ∧ (pixel_event t_offset b0 b1 b2 b3).y < height := by
  have h0 := b0.isLt
  rw [pixel_event_fields]
  simp only [byte_shr_1, byte_land_0x7f, width, height]
  omega

/-- An event comes out of the third branch only: it is `pixel_event` of the word. -/
theorem decode_word_some (s s1 : Nat) (b0 b1 b2 b3 : Byte) (e : dvs_event)
    (h : decode_word s b0 b1 b2 b3 = (s1, some e)) :
    e = pixel_event s b0 b1 b2 b3 := by
  unfold decode_word at h
  split at h
  · simp at h
  · split at h
    · simp at h
    · split at h
      · have h2 := (Prod.mk.inj h).2
        exact (Option.some.inj h2).symm
      · simp at h

/-- Counterexample to C8 as stated: the word `00 00 10 00` is decoded into an
event with `x = 128`, which is `camera::width()` itself and so not below it. -/
theorem C8_x_equals_width_at_b0_zero :
    decode_word 0 0x00 0x00 0x10 0x00 =
        (0, some { t := 0x10, x := 128, y := 0, is_increase := true })
      ∧ (pixel_event 0 0x00 0x00 0x10 0x00).x = width
      ∧ ¬ ((pixel_event 0 0x00 0x00 0x10 0x00).x < width) := by
  decide

/-- C8, amended: every event the decoder emits has `x = 128 - (b0 >> 1)` with
`1 ≤ x ≤ camera::width()` and `y = b1 & 0x7f` with `y < camera::height()`. -/
theorem C8_coordinates_within_sensor_bounds (s s1 : Nat) (b0 b1 b2 b3 : Byte)
    (e : dvs_event) (h : decode_word s b0 b1 b2 b3 = (s1, some e)) :
    e.x = 128 - (b0.val >>> 1) ∧ e.y = b1.val &&& 0x7f
      ∧ 1 ≤ e.x ∧ e.x ≤ width ∧ e.y < height := by
  have he := decode_word_some s s1 b0 b1 b2 b3 e h
  have hc := pixel_event_coordinates s b0 b1 b2 b3
  have hf := pixel_event_fields s b0 b1 b2 b3
  rw [← he] at hc hf
  refine ⟨?_, ?_, hc.1, hc.2.1, hc.2.2⟩
  · rw [hf]
  · rw [hf]

/-- Witness of the amended C8 at the word `01 7f 00 00` with offset 0, whose
event has `x = 128` and `y = 127`. -/
theorem C8_coordinates_within_sensor_bounds_witness :
    decode_word 0 0x01 0x7f 0x00 0x00 =
        (0, some { t := 0, x := 128, y := 127, is_increase := false })
      ∧ (({ t := 0, x := 128, y := 127, is_increase := false } : dvs_event).x
            = 128 - ((0x01 : Byte).val >>> 1)
          ∧ ({ t := 0, x := 128, y := 127, is_increase := false } : dvs_event).y
            = (0x7f : Byte).val &&& 0x7f
          ∧ 1 ≤ ({ t := 0, x := 128, y := 127, is_increase := false } : dvs_event).x
          ∧ ({ t := 0, x := 128, y := 127, is_increase := false } : dvs_event).x ≤ width
          ∧ ({ t := 0, x := 128, y := 127, is_increase := false } : dvs_event).y < height) :=
  ⟨by decide,
   C8_coordinates_within_sensor_bounds 0 0 0x01 0x7f 0x00 0x00
     { t := 0, x := 128, y := 127, is_increase := false } (by decide)⟩

/-! ## The acquisition loop -/

/-- The word loop is left either normally or by the FIFO overflow exception. -/
theorem word_loop_error (accept : Nat → Bool) :
    ∀ (n : Nat) (bytes : List Byte) (st : loop_state), bytes.length ≤ n →
      (word_loop accept bytes st).2 = none
        ∨ (word_loop accept bytes st).2 = some acquisition_error.fifo_overflow := by
  intro n
  induction n using Nat.strong_induction_on with
  | _ n ih =>
    intro bytes st hn
    match bytes, hn with
    | [], _ => left; simp [word_loop]
    | [_], _ => left; simp [word_loop]
    | [_, _], _ => left; simp [word_loop]
    | [_, _, _], _ => left; simp [word_loop]
    | b0 :: b1 :: b2 :: b3 :: rest, hn =>
      have hlen : rest.length < n := by simp at hn; omega
      rw [word_loop]
      rcases hd : decode_word st.t_offset b0 b1 b2 b3 with ⟨o, _ | event⟩
      · exact ih rest.length hlen rest _ (le_refl _)
      · dsimp only
        cases ha : accept st.pushes.length
        · right; simp
        · simpa using ih rest.length hlen rest _ (le_refl _)

theorem transfer_ok_iff (r : bulk_result) :
    transfer_ok r = true ↔
      (r.error = 0 ∨ r.error = LIBUSB_ERROR_TIMEOUT) ∧ 4 ∣ r.transferred := by
  have hmod : r.transferred % 4 = 0 ↔ 4 ∣ r.transferred :=
    Nat.dvd_iff_mod_eq_zero.symm
  simp [transfer_ok, hmod]

/-- C5: one iteration of the acquisition loop throws `sepia::device_disconnected`
exactly when the return value of the bulk transfer is neither 0 nor
`LIBUSB_ERROR_TIMEOUT`, or the transferred count is not a multiple of 4; in
every other case it runs the word loop over the transferred bytes, which never
throws that exception. -/
theorem C5_disconnected_iff_bad_transfer (accept : Nat → Bool) (r : bulk_result)
    (st : loop_state) :
    ((acquisition_iteration accept r st).2 = some acquisition_error.device_disconnected ↔
        ((r.error ≠ 0 ∧ r.error ≠ LIBUSB_ERROR_TIMEOUT) ∨ ¬ 4 ∣ r.transferred))
      ∧ acquisition_iteration accept r st =
          if (r.error ≠ 0 ∧ r.error ≠ LIBUSB_ERROR_TIMEOUT) ∨ ¬ 4 ∣ r.transferred then
            ({ st with reads := st.reads + 1 }, some acquisition_error.device_disconnected)
          else
            word_loop accept (r.bytes.take r.transferred) { st with reads := st.reads + 1 } := by
  have hiff := transfer_ok_iff r
  by_cases hok : transfer_ok r = true
  · have hgood := hiff.mp hok
    have hcond : ¬ ((r.error ≠ 0 ∧ r.error ≠ LIBUSB_ERROR_TIMEOUT) ∨ ¬ 4 ∣ r.transferred) := by
      rintro (⟨h0, h1⟩ | h4)
      · rcases hgood.1 with h | h
        · exact h0 h
        · exact h1 h
      · exact h4 hgood.2
    have hrun : acquisition_iteration accept r st =
        word_loop accept (r.bytes.take r.transferred) { st with reads := st.reads + 1 } := by
      simp [acquisition_iteration, hok]
    refine ⟨?_, ?_⟩
    · rw [hrun]
      constructor
      · intro hdis
        rcases word_loop_error accept _ _ { st with reads := st.reads + 1 } (le_refl _) with h | h
        · rw [h] at hdis; cases hdis
        · rw [h] at hdis; cases hdis
      · intro h
        exact absurd h hcond
    · rw [if_neg hcond, hrun]
  · have hcond : (r.error ≠ 0 ∧ r.error ≠ LIBUSB_ERROR_TIMEOUT) ∨ ¬ 4 ∣ r.transferred := by
      by_contra hne
      apply hok
      apply hiff.mpr
      constructor
      · by_contra hno
        apply hne
        left
        exact ⟨fun h => hno (Or.inl h), fun h => hno (Or.inr h)⟩
      · by_contra hno
        exact hne (Or.inr hno)
    have hrun : acquisition_iteration accept r st =
        ({ st with reads := st.reads + 1 }, some acquisition_error.device_disconnected) := by
      simp [acquisition_iteration, hok]
    refine ⟨?_, ?_⟩
    · rw [hrun]
      exact ⟨fun _ => hcond, fun _ => rfl⟩
    · rw [if_pos hcond, hrun]

theorem decode_words_cons_none (s s1 : Nat) (w : word) (ws : List word)
    (h : decode_word s w.b0 w.b1 w.b2 w.b3 = (s1, none)) :
    decode_words s (w :: ws) = decode_words s1 ws := by
  rw [decode_words, h]

theorem decode_words_cons_some (s s1 : Nat) (event : dvs_event) (w : word) (ws : List word)
    (h : decode_word s w.b0 w.b1 w.b2 w.b3 = (s1, some event)) :
    decode_words s (w :: ws) = ((decode_words s1 ws).1, event :: (decode_words s1 ws).2) := by
  rw [decode_words, h]

theorem decode_words_append (s : Nat) (xs ys : List word) :
    decode_words s (xs ++ ys) =
      ((decode_words (decode_words s xs).1 ys).1,
       (decode_words s xs).2 ++ (decode_words (decode_words s xs).1 ys).2) := by
  induction xs generalizing s with
  | nil => simp [decode_words]
  | cons w ws ih =>
    rcases hd : decode_word s w.b0 w.b1 w.b2 w.b3 with ⟨s1, _ | event⟩
    · rw [List.cons_append, decode_words_cons_none s s1 w _ hd,
        decode_words_cons_none s s1 w _ hd, ih]
    · rw [List.cons_append, decode_words_cons_some s s1 event w _ hd,
        decode_words_cons_some s s1 event w _ hd, ih]
      simp

theorem bytes_of_words_append (xs ys : List word) :
    bytes_of_words (xs ++ ys) = bytes_of_words xs ++ bytes_of_words ys := by
  induction xs with
  | nil => simp [bytes_of_words]
  | cons x xs ih => simp [bytes_of_words, ih]

/-- While the queue accepts, the word loop does what `decode_words` computes. -/
theorem word_loop_accepting (accept : Nat → Bool) (ws : List word) :
    ∀ (tail : List Byte) (st : loop_state),
      (∀ j, j < (decode_words st.t_offset ws).2.length → accept (st.pushes.length + j) = true) →
      word_loop accept (bytes_of_words ws ++ tail) st =
        word_loop accept tail
          { t_offset := (decode_words st.t_offset ws).1
            pushes := st.pushes ++ (decode_words st.t_offset ws).2.map (fun e => (e, true))
            words := st.words + ws.length
            reads := st.reads } := by
  induction ws with
  | nil =>
    intro tail st _
    simp [bytes_of_words, decode_words]
  | cons w ws ih =>
    intro tail st hacc
    rcases hd : decode_word st.t_offset w.b0 w.b1 w.b2 w.b3 with ⟨s1, _ | event⟩
    · rw [decode_words_cons_none _ s1 w ws hd] at hacc ⊢
      simp only [bytes_of_words, List.cons_append]
      rw [word_loop_skip accept st _ _ _ _ _ s1 hd, ih tail _ hacc]
      simp only [List.length_cons]
      congr 2
      omega
    · rw [decode_words_cons_some _ s1 event w ws hd] at hacc ⊢
      have h0 : accept st.pushes.length = true := by
        simpa using hacc 0 (by simp)
      simp only [bytes_of_words, List.cons_append]
      rw [word_loop_push accept st _ _ _ _ _ s1 event hd h0, ih tail _ ?_]
      · simp only [List.length_cons, List.map_cons, List.append_assoc, List.singleton_append]
        congr 2
        omega
      · intro j hj
        have := hacc (j + 1) (by simpa using hj)
        simpa [Nat.add_assoc, Nat.add_comm 1 j] using this

theorem accepted_append_true (l : List (dvs_event × Bool)) (events : List dvs_event) :
    ((l ++ events.map (fun e => (e, true))).filter (fun p => p.2)).map (fun p => p.1) =
      (l.filter (fun p => p.2)).map (fun p => p.1) ++ events := by
  induction events generalizing l with
  | nil => simp
  | cons e es ih =>
    have := ih (l ++ [(e, true)])
    simp only [List.map_cons, List.append_assoc, List.singleton_append] at this ⊢
    rw [this]
    simp

/-- The loop stopped by a rejected push, with the buffer cut at the word whose
event is rejected. -/
theorem acquisition_loop_fifo_overflow (accept : Nat → Bool) (st : loop_state)
    (r : bulk_result) (rest : List bulk_result) (pre : List word) (w : word) (post : List word)
    (o : Nat) (event : dvs_event)
    (hok : transfer_ok r = true)
    (hbytes : r.bytes.take r.transferred = bytes_of_words (pre ++ w :: post))
    (hw : decode_word (decode_words st.t_offset pre).1 w.b0 w.b1 w.b2 w.b3 = (o, some event))
    (hacc : ∀ j, j < (decode_words st.t_offset pre).2.length →
      accept (st.pushes.length + j) = true)
    (hrej : accept (st.pushes.length + (decode_words st.t_offset pre).2.length) = false) :
    acquisition_loop_from accept (r :: rest) st =
      { state :=
          { t_offset := o
            pushes := st.pushes ++ (decode_words st.t_offset pre).2.map (fun e => (e, true))
              ++ [(event, false)]
            words := st.words + pre.length + 1
            reads := st.reads + 1 }
        handled := [acquisition_error.fifo_overflow] } := by
  have hsplit : bytes_of_words (pre ++ w :: post)
      = bytes_of_words pre ++ (w.b0 :: w.b1 :: w.b2 :: w.b3 :: bytes_of_words post) := by
    rw [bytes_of_words_append, bytes_of_words]
  have hrun : acquisition_iteration accept r st =
      ({ t_offset := o
         pushes := st.pushes ++ (decode_words st.t_offset pre).2.map (fun e => (e, true))
           ++ [(event, false)]
         words := st.words + pre.length + 1
         reads := st.reads + 1 },
       some acquisition_error.fifo_overflow) := by
    have h1 := word_loop_accepting accept pre
      (w.b0 :: w.b1 :: w.b2 :: w.b3 :: bytes_of_words post)
      { st with reads := st.reads + 1 } hacc
    have h2 := word_loop_overflow accept
      { t_offset := (decode_words st.t_offset pre).1
        pushes := st.pushes ++ (decode_words st.t_offset pre).2.map (fun e => (e, true))
        words := st.words + pre.length
        reads := st.reads + 1 }
      w.b0 w.b1 w.b2 w.b3 (bytes_of_words post) o event hw (by simpa using hrej)
    simp only [acquisition_iteration, hok, if_true, hbytes, hsplit]
    rw [h1]
    exact h2
  rw [acquisition_loop_from, hrun]

/-- Every event of a buffer comes from one word: the buffer splits at that word,
the words before it give the events before it. -/
theorem decode_words_split (ws : List word) :
    ∀ (s k : Nat), k < (decode_words s ws).2.length →
      ∃ (pre : List word) (w : word) (post : List word) (o : Nat) (event : dvs_event),
        ws = pre ++ w :: post
          ∧ (decode_words s pre).2 = (decode_words s ws).2.take k
          ∧ decode_word (decode_words s pre).1 w.b0 w.b1 w.b2 w.b3 = (o, some event) := by
  induction ws with
  | nil =>
    intro s k hk
    simp [decode_words] at hk
  | cons x xs ih =>
    intro s k hk
    rcases hd : decode_word s x.b0 x.b1 x.b2 x.b3 with ⟨s1, _ | e⟩
    · rw [decode_words_cons_none s s1 x xs hd] at hk ⊢
      obtain ⟨pre, w, post, o, event, hws, hpre, hw⟩ := ih s1 k hk
      refine ⟨x :: pre, w, post, o, event, by simp [hws], ?_, ?_⟩
      · rw [decode_words_cons_none s s1 x pre hd]
        exact hpre
      · rw [decode_words_cons_none s s1 x pre hd]
        exact hw
    · rw [decode_words_cons_some s s1 e x xs hd] at hk ⊢
      cases k with
      | zero =>
        refine ⟨[], x, xs, s1, e, by simp, by simp [decode_words], ?_⟩
        simpa [decode_words] using hd
      | succ k =>
        have hk1 : k < (decode_words s1 xs).2.length := by simpa using hk
        obtain ⟨pre, w, post, o, event, hws, hpre, hw⟩ := ih s1 k hk1
        refine ⟨x :: pre, w, post, o, event, by simp [hws], ?_, ?_⟩
        · rw [decode_words_cons_some s s1 e x pre hd]
          simp [hpre]
        · rw [decode_words_cons_some s s1 e x pre hd]
          exact hw

/-- C6: when the push of the `k`-th pixel event of a buffer is the first one the
queue refuses, the acquisition loop ends there and hands the FIFO overflow
exception to `_handle_exception`, once: the queue has accepted exactly the first
`k - 1` pixel events of the buffer, in word order, the word loop has examined
the words up to the refused one and none after it, and no bulk transfer follows,
whatever transfers were still to come. -/
theorem C6_refused_push_stops_acquisition (accept : Nat → Bool) (st : loop_state)
    (r : bulk_result) (rest : List bulk_result) (ws : List word) (k : Nat)
    (hok : transfer_ok r = true)
    (hbytes : r.bytes.take r.transferred = bytes_of_words ws)
    (hk1 : 1 ≤ k) (hk : k ≤ (decode_words st.t_offset ws).2.length)
    (hacc : ∀ j, j < k - 1 → accept (st.pushes.length + j) = true)
    (hrej : accept (st.pushes.length + (k - 1)) = false) :
    ∃ (pre : List word) (w : word) (post : List word),
      ws = pre ++ w :: post
        ∧ (decode_words st.t_offset pre).2 = (decode_words st.t_offset ws).2.take (k - 1)
        ∧ (acquisition_loop_from accept (r :: rest) st).handled
            = [acquisition_error.fifo_overflow]
        ∧ (acquisition_loop_from accept (r :: rest) st).state.accepted
            = st.accepted ++ (decode_words st.t_offset ws).2.take (k - 1)
        ∧ (acquisition_loop_from accept (r :: rest) st).state.pushes.length
            = st.pushes.length + k
        ∧ (acquisition_loop_from accept (r :: rest) st).state.words
            = st.words + pre.length + 1
        ∧ (acquisition_loop_from accept (r :: rest) st).state.reads = st.reads + 1 := by
  obtain ⟨pre, w, post, o, event, hws, hpre, hw⟩ :=
    decode_words_split ws st.t_offset (k - 1) (by omega)
  have hlen : (decode_words st.t_offset pre).2.length = k - 1 := by
    rw [hpre, List.length_take]
    omega
  have hrun := acquisition_loop_fifo_overflow accept st r rest pre w post o event hok
    (by rw [hbytes, hws]) hw (by rw [hlen]; exact hacc) (by rw [hlen]; exact hrej)
  refine ⟨pre, w, post, hws, hpre, ?_, ?_, ?_, ?_, ?_⟩
  · rw [hrun]
  · rw [hrun]
    simp only [loop_state.accepted]
    rw [List.filter_append, List.map_append]
    have := accepted_append_true st.pushes (decode_words st.t_offset pre).2
    rw [this, hpre]
    simp
  · rw [hrun]
    simp only [List.length_append, List.length_map, List.length_singleton, hlen]
    omega
  · rw [hrun]
  · rw [hrun]

/-- Witness of C6: a queue that accepts one push, and the buffer
`00 00 10 00 | 00 00 00 80 | 02 05 20 00`, whose second pixel event is refused. -/
theorem C6_refused_push_stops_acquisition_witness :
    ∃ (pre : List word) (w : word) (post : List word),
      [(⟨0x00, 0x00, 0x10, 0x00⟩ : word), ⟨0x00, 0x00, 0x00, 0x80⟩, ⟨0x02, 0x05, 0x20, 0x00⟩]
          = pre ++ w :: post
        ∧ (decode_words loop_state.initial.t_offset pre).2
            = (decode_words loop_state.initial.t_offset
                [⟨0x00, 0x00, 0x10, 0x00⟩, ⟨0x00, 0x00, 0x00, 0x80⟩,
                  ⟨0x02, 0x05, 0x20, 0x00⟩]).2.take (2 - 1)
        ∧ (acquisition_loop_from (fun n => decide (n < 1))
            (⟨0, 12, [0x00, 0x00, 0x10, 0x00, 0x00, 0x00, 0x00, 0x80, 0x02, 0x05, 0x20, 0x00,
                0x07, 0x07]⟩ :: [⟨0, 0, []⟩]) loop_state.initial).handled
            = [acquisition_error.fifo_overflow]
        ∧ (acquisition_loop_from (fun n => decide (n < 1))
            (⟨0, 12, [0x00, 0x00, 0x10, 0x00, 0x00, 0x00, 0x00, 0x80, 0x02, 0x05, 0x20, 0x00,
                0x07, 0x07]⟩ :: [⟨0, 0, []⟩]) loop_state.initial).state.accepted
            = loop_state.initial.accepted
              ++ (decode_words loop_state.initial.t_offset
                [⟨0x00, 0x00, 0x10, 0x00⟩, ⟨0x00, 0x00, 0x00, 0x80⟩,
                  ⟨0x02, 0x05, 0x20, 0x00⟩]).2.take (2 - 1)
        ∧ (acquisition_loop_from (fun n => decide (n < 1))
            (⟨0, 12, [0x00, 0x00, 0x10, 0x00, 0x00, 0x00, 0x00, 0x80, 0x02, 0x05, 0x20, 0x00,
                0x07, 0x07]⟩ :: [⟨0, 0, []⟩]) loop_state.initial).state.pushes.length
            = loop_state.initial.pushes.length + 2
        ∧ (acquisition_loop_from (fun n => decide (n < 1))
            (⟨0, 12, [0x00, 0x00, 0x10, 0x00, 0x00, 0x00, 0x00, 0x80, 0x02, 0x05, 0x20, 0x00,
                0x07, 0x07]⟩ :: [⟨0, 0, []⟩]) loop_state.initial).state.words
            = loop_state.initial.words + pre.length + 1
        ∧ (acquisition_loop_from (fun n => decide (n < 1))
            (⟨0, 12, [0x00, 0x00, 0x10, 0x00, 0x00, 0x00, 0x00, 0x80, 0x02, 0x05, 0x20, 0x00,
                0x07, 0x07]⟩ :: [⟨0, 0, []⟩]) loop_state.initial).state.reads
            = loop_state.initial.reads + 1 :=
  C6_refused_push_stops_acquisition (fun n => decide (n < 1)) loop_state.initial
    ⟨0, 12, [0x00, 0x00, 0x10, 0x00, 0x00, 0x00, 0x00, 0x80, 0x02, 0x05, 0x20, 0x00, 0x07, 0x07]⟩
    [⟨0, 0, []⟩]
    [⟨0x00, 0x00, 0x10, 0x00⟩, ⟨0x00, 0x00, 0x00, 0x80⟩, ⟨0x02, 0x05, 0x20, 0x00⟩] 2
    (by decide) (by decide) (by decide) (by decide) (by decide) (by decide)

/-! ## Timestamps across an overflow marker -/

theorem decode_words_offset_cons (s : Nat) (w : word) (ws : List word) :
    (decode_words s (w :: ws)).1
      = (decode_words (decode_word s w.b0 w.b1 w.b2 w.b3).1 ws).1 := by
  rcases hd : decode_word s w.b0 w.b1 w.b2 w.b3 with ⟨s1, _ | e⟩
  · rw [decode_words_cons_none s s1 w ws hd]
  · rw [decode_words_cons_some s s1 e w ws hd]

theorem no_wrap_append (xs ys : List word) :
    ∀ (s : Nat), no_wrap s (xs ++ ys) = (no_wrap s xs && no_wrap (decode_words s xs).1 ys) := by
  induction xs with
  | nil => intro s; simp [no_wrap, decode_words]
  | cons x xs ih =>
    intro s
    rw [List.cons_append, no_wrap, no_wrap, ih, decode_words_offset_cons, Bool.and_assoc]

/-- The raw timestamp field of a word that is neither marker is below `0x4000`. -/
theorem raw_timestamp_lt (b2 b3 : Byte)
    (h7 : b3.val.testBit 7 = false) (h6 : b3.val.testBit 6 = false) :
    b2.val ||| (b3.val <<< 8) < 0x4000 := by
  have h1 := byte_testBit_7 b3
  have h2 := byte_testBit_6 b3
  rw [h7] at h1
  rw [h6] at h2
  have h3 := of_decide_eq_false h1.symm
  have h4 := of_decide_eq_false h2.symm
  have hb2 := b2.isLt
  rw [byte_lor_shl_8]
  omega

/-- An event emitted at offset `s` without wrap-around has `s ≤ t < s + 0x4000`. -/
theorem decode_word_event_bounds (s s1 : Nat) (w : word) (e : dvs_event)
    (hd : decode_word s w.b0 w.b1 w.b2 w.b3 = (s1, some e))
    (hw : (w.b2.val ||| (w.b3.val <<< 8)) + s < 2 ^ 64) :
    s1 = s ∧ s ≤ e.t ∧ e.t < s + 0x4000 := by
  cases h7 : w.b3.val.testBit 7
  · cases h6 : w.b3.val.testBit 6
    · cases h1 : w.b1.val.testBit 7
      · rw [decode_word_pixel s _ _ _ _ h7 h6 h1] at hd
        have hraw := raw_timestamp_lt w.b2 w.b3 h7 h6
        have hs : s1 = s := (congrArg Prod.fst hd).symm
        have he : pixel_event s w.b0 w.b1 w.b2 w.b3 = e := by
          have := congrArg Prod.snd hd
          simpa using this
        have ht : e.t = (w.b2.val ||| (w.b3.val <<< 8)) + s := by
          rw [← he]
          simp only [pixel_event]
          exact Nat.mod_eq_of_lt hw
        refine ⟨hs, ?_, ?_⟩ <;> omega
      · simp [decode_word, is_overflow_marker_eq, is_reset_marker_eq, is_pixel_word_eq,
          h7, h6, h1] at hd
    · rw [decode_word_reset s _ _ _ _ h7 h6] at hd
      simp at hd
  · rw [decode_word_overflow s _ _ _ _ h7] at hd
    simp at hd

/-- Without a reset marker and without wrap-around the offset never decreases,
and every event lies between the starting offset and the final offset plus
`0x4000`. -/
theorem decode_words_bounds (ws : List word) :
    ∀ (s : Nat),
      (∀ w ∈ ws, ¬ (w.b3.val.testBit 7 = false ∧ w.b3.val.testBit 6 = true)) →
      no_wrap s ws = true →
      s ≤ (decode_words s ws).1
        ∧ ∀ e ∈ (decode_words s ws).2, s ≤ e.t ∧ e.t < (decode_words s ws).1 + 0x4000 := by
  induction ws with
  | nil =>
    intro s _ _
    simp [decode_words]
  | cons w ws ih =>
    intro s hreset hwrap
    have hreset1 : ∀ x ∈ ws, ¬ (x.b3.val.testBit 7 = false ∧ x.b3.val.testBit 6 = true) :=
      fun x hx => hreset x (List.mem_cons_of_mem _ hx)
    have hw0 := hreset w (List.mem_cons_self _ _)
    rw [no_wrap, Bool.and_eq_true] at hwrap
    obtain ⟨hhead, htail⟩ := hwrap
    rcases hd : decode_word s w.b0 w.b1 w.b2 w.b3 with ⟨s1, _ | e⟩
    · rw [hd] at htail
      rw [decode_words_cons_none s s1 w ws hd]
      obtain ⟨hle, hev⟩ := ih s1 hreset1 htail
      have hs : s ≤ s1 := by
        cases h7 : w.b3.val.testBit 7
        · cases h6 : w.b3.val.testBit 6
          · cases h1 : w.b1.val.testBit 7
            · rw [decode_word_pixel s _ _ _ _ h7 h6 h1] at hd
              simp at hd
            · simp [decode_word, is_overflow_marker_eq, is_reset_marker_eq, is_pixel_word_eq,
                h7, h6, h1] at hd
              omega
          · exact absurd ⟨h7, h6⟩ hw0
        · rw [decode_word_overflow s _ _ _ _ h7] at hd
          simp only [is_overflow_marker_eq, h7, if_true, decide_eq_true_eq] at hhead
          have h1 := (Prod.mk.inj hd).1
          rw [Nat.mod_eq_of_lt hhead] at h1
          omega
      refine ⟨le_trans hs hle, ?_⟩
      intro e he
      have := hev e he
      omega
    · rw [hd] at htail
      rw [decode_words_cons_some s s1 e w ws hd]
      obtain ⟨hle, hev⟩ := ih s1 hreset1 htail
      have hraw : (w.b2.val ||| (w.b3.val <<< 8)) + s < 2 ^ 64 := by
        cases h7 : w.b3.val.testBit 7
        · cases h6 : w.b3.val.testBit 6
          · cases h1 : w.b1.val.testBit 7
            · simpa [is_overflow_marker_eq, is_reset_marker_eq, is_pixel_word_eq, h7, h6, h1]
                using hhead
            · simp [decode_word, is_overflow_marker_eq, is_reset_marker_eq, is_pixel_word_eq,
                h7, h6, h1] at hd
          · exact absurd ⟨h7, h6⟩ hw0
        · rw [decode_word_overflow s _ _ _ _ h7] at hd
          simp at hd
      obtain ⟨hs, hlo, hhi⟩ := decode_word_event_bounds s s1 w e hd hraw
      subst hs
      refine ⟨hle, ?_⟩
      intro e1 he1
      rcases List.mem_cons.mp he1 with h | h
      · subst h
        exact ⟨hlo, by omega⟩
      · have := hev e1 h
        omega

/-- The word loop over a buffer followed by more bytes: if it throws in the buffer
it stops there, otherwise it goes on through the bytes that follow. -/
theorem word_loop_words_append (accept : Nat → Bool) (ws : List word) :
    ∀ (tail : List Byte) (st : loop_state),
      word_loop accept (bytes_of_words ws ++ tail) st =
        if (word_loop accept (bytes_of_words ws) st).2 = none then
          word_loop accept tail (word_loop accept (bytes_of_words ws) st).1
        else word_loop accept (bytes_of_words ws) st := by
  induction ws with
  | nil =>
    intro tail st
    simp [bytes_of_words, word_loop_nil]
  | cons w ws ih =>
    intro tail st
    simp only [bytes_of_words, List.cons_append]
    rcases hd : decode_word st.t_offset w.b0 w.b1 w.b2 w.b3 with ⟨s1, _ | e⟩
    · rw [word_loop_skip accept st _ _ _ _ _ s1 hd, word_loop_skip accept st _ _ _ _ _ s1 hd]
      exact ih tail _
    · cases ha : accept st.pushes.length
      · rw [word_loop_overflow accept st _ _ _ _ _ s1 e hd ha,
          word_loop_overflow accept st _ _ _ _ _ s1 e hd ha]
        simp
      · rw [word_loop_push accept st _ _ _ _ _ s1 e hd ha,
          word_loop_push accept st _ _ _ _ _ s1 e hd ha]
        exact ih tail _

/-- Whatever the queue answers, the events the word loop hands to `push` are
events of `decode_words`, appended to the earlier calls; when the loop is left
normally the offset is the one `decode_words` computes. -/
theorem word_loop_pushes (accept : Nat → Bool) (ws : List word) :
    ∀ (st : loop_state),
      ∃ new : List (dvs_event × Bool),
        (word_loop accept (bytes_of_words ws) st).1.pushes = st.pushes ++ new
          ∧ (∀ p ∈ new, p.1 ∈ (decode_words st.t_offset ws).2)
          ∧ ((word_loop accept (bytes_of_words ws) st).2 = none →
              (word_loop accept (bytes_of_words ws) st).1.t_offset
                = (decode_words st.t_offset ws).1) := by
  induction ws with
  | nil =>
    intro st
    refine ⟨[], ?_, ?_, ?_⟩ <;> simp [bytes_of_words, word_loop_nil, decode_words]
  | cons w ws ih =>
    intro st
    simp only [bytes_of_words]
    rcases hd : decode_word st.t_offset w.b0 w.b1 w.b2 w.b3 with ⟨s1, _ | e⟩
    · rw [word_loop_skip accept st _ _ _ _ _ s1 hd, decode_words_cons_none _ s1 w ws hd]
      exact ih { st with t_offset := s1, words := st.words + 1 }
    · rw [decode_words_cons_some _ s1 e w ws hd]
      cases ha : accept st.pushes.length
      · rw [word_loop_overflow accept st _ _ _ _ _ s1 e hd ha]
        refine ⟨[(e, false)], rfl, ?_, ?_⟩
        · intro p hp
          simp at hp
          simp [hp]
        · intro h
          simp at h
      · rw [word_loop_push accept st _ _ _ _ _ s1 e hd ha]
        obtain ⟨new, hnew, hmem, hoff⟩ := ih
          { st with t_offset := s1, pushes := st.pushes ++ [(e, true)], words := st.words + 1 }
        refine ⟨(e, true) :: new, ?_, ?_, hoff⟩
        · rw [hnew]
          simp
        · intro p hp
          rcases List.mem_cons.mp hp with h | h
          · simp [h]
          · exact List.mem_cons_of_mem _ (hmem p h)

/-- C10: without wrap-around an event emitted at offset `s` has
`s ≤ t < s + 0x4000`; and in a buffer without reset marker, decoded without
wrap-around, every event decoded after an overflow marker has a timestamp
strictly above that of every event decoded before the marker, both for the
events of `decode_words` and for the events the word loop hands to `push`
under any queue. -/
theorem C10_timestamps_increase_across_overflow (accept : Nat → Bool) (st : loop_state)
    (pre : List word) (o : word) (post : List word)
    (ho : o.b3.val.testBit 7 = true)
    (hreset : ∀ w ∈ pre ++ o :: post,
      ¬ (w.b3.val.testBit 7 = false ∧ w.b3.val.testBit 6 = true))
    (hwrap : no_wrap st.t_offset (pre ++ o :: post) = true) :
    (∀ (s s1 : Nat) (w : word) (e : dvs_event),
        decode_word s w.b0 w.b1 w.b2 w.b3 = (s1, some e) →
        (w.b2.val ||| (w.b3.val <<< 8)) + s < 2 ^ 64 →
        s ≤ e.t ∧ e.t < s + 0x4000)
      ∧ (decode_words st.t_offset (pre ++ o :: post)).2
          = (decode_words st.t_offset pre).2
            ++ (decode_words ((decode_words st.t_offset pre).1 + 0x4000) post).2
      ∧ (∀ e1 ∈ (decode_words st.t_offset pre).2,
          ∀ e2 ∈ (decode_words ((decode_words st.t_offset pre).1 + 0x4000) post).2,
            e1.t < e2.t)
      ∧ (word_loop accept (bytes_of_words pre) st).1.pushes
          <+: (word_loop accept (bytes_of_words (pre ++ o :: post)) st).1.pushes
      ∧ (∀ p1 ∈ (word_loop accept (bytes_of_words pre) st).1.pushes.drop st.pushes.length,
          ∀ p2 ∈ (word_loop accept (bytes_of_words (pre ++ o :: post)) st).1.pushes.drop
              (word_loop accept (bytes_of_words pre) st).1.pushes.length,
            p1.1.t < p2.1.t) := by
  have hreset_pre : ∀ w ∈ pre, ¬ (w.b3.val.testBit 7 = false ∧ w.b3.val.testBit 6 = true) :=
    fun w hw => hreset w (List.mem_append_left _ hw)
  have hreset_post : ∀ w ∈ post, ¬ (w.b3.val.testBit 7 = false ∧ w.b3.val.testBit 6 = true) :=
    fun w hw => hreset w (List.mem_append_right _ (List.mem_cons_of_mem _ hw))
  rw [no_wrap_append, Bool.and_eq_true] at hwrap
  obtain ⟨hwrap_pre, hwrap_tail⟩ := hwrap
  have hdo := decode_word_overflow (decode_words st.t_offset pre).1 o.b0 o.b1 o.b2 o.b3 ho
  rw [no_wrap, Bool.and_eq_true, hdo] at hwrap_tail
  obtain ⟨hmark, hwrap_post⟩ := hwrap_tail
  simp only [is_overflow_marker_eq, ho, if_true, decide_eq_true_eq] at hmark
  have hmod : ((decode_words st.t_offset pre).1 + 0x4000) % 2 ^ 64
      = (decode_words st.t_offset pre).1 + 0x4000 := Nat.mod_eq_of_lt hmark
  rw [hmod] at hdo hwrap_post
  have hpre := decode_words_bounds pre st.t_offset hreset_pre hwrap_pre
  have hpost := decode_words_bounds post _ hreset_post hwrap_post
  have hevents : (decode_words st.t_offset (pre ++ o :: post)).2
      = (decode_words st.t_offset pre).2
        ++ (decode_words ((decode_words st.t_offset pre).1 + 0x4000) post).2 := by
    rw [decode_words_append, decode_words_cons_none _ _ o post hdo]
  have horder : ∀ e1 ∈ (decode_words st.t_offset pre).2,
      ∀ e2 ∈ (decode_words ((decode_words st.t_offset pre).1 + 0x4000) post).2,
        e1.t < e2.t := by
    intro e1 h1 e2 h2
    have a := hpre.2 e1 h1
    have b := hpost.2 e2 h2
    omega
  refine ⟨fun s s1 w e hd hw => (decode_word_event_bounds s s1 w e hd hw).2,
    hevents, horder, ?_, ?_⟩
  · rw [bytes_of_words_append, word_loop_words_append]
    split
    · obtain ⟨new, hnew, _, _⟩ := word_loop_pushes accept (o :: post)
        (word_loop accept (bytes_of_words pre) st).1
      rw [hnew]
      exact List.prefix_append _ _
    · exact List.prefix_refl _
  · intro p1 hp1 p2 hp2
    obtain ⟨new1, hnew1, hmem1, hoff1⟩ := word_loop_pushes accept pre st
    rw [hnew1, List.drop_left] at hp1
    rw [bytes_of_words_append, word_loop_words_append] at hp2
    split at hp2
    · rename_i hnone
      obtain ⟨new2, hnew2, hmem2, _⟩ := word_loop_pushes accept (o :: post)
        (word_loop accept (bytes_of_words pre) st).1
      rw [hnew2, List.drop_left] at hp2
      have h2 := hmem2 p2 hp2
      rw [hoff1 hnone, decode_words_cons_none _ _ o post hdo] at h2
      exact horder p1.1 (hmem1 p1 hp1) p2.1 h2
    · simp at hp2

/-- Witness of C10: the buffer `00 00 ff 3f | 00 00 00 80 | 00 00 00 00` decoded
from offset 0: the event before the marker has `t = 0x3fff`, the one after it
`t = 0x4000`. -/
theorem C10_timestamps_increase_across_overflow_witness :
    (decode_words loop_state.initial.t_offset
        ([⟨0x00, 0x00, 0xff, 0x3f⟩] ++ ⟨0x00, 0x00, 0x00, 0x80⟩ :: [⟨0x00, 0x00, 0x00, 0x00⟩])).2
        = (decode_words loop_state.initial.t_offset [⟨0x00, 0x00, 0xff, 0x3f⟩]).2
          ++ (decode_words
              ((decode_words loop_state.initial.t_offset [⟨0x00, 0x00, 0xff, 0x3f⟩]).1 + 0x4000)
              [⟨0x00, 0x00, 0x00, 0x00⟩]).2
      ∧ (∀ e1 ∈ (decode_words loop_state.initial.t_offset [⟨0x00, 0x00, 0xff, 0x3f⟩]).2,
          ∀ e2 ∈ (decode_words
              ((decode_words loop_state.initial.t_offset [⟨0x00, 0x00, 0xff, 0x3f⟩]).1 + 0x4000)
              [⟨0x00, 0x00, 0x00, 0x00⟩]).2,
            e1.t < e2.t) :=
  ⟨(C10_timestamps_increase_across_overflow (fun _ => true) loop_state.initial
      [⟨0x00, 0x00, 0xff, 0x3f⟩] ⟨0x00, 0x00, 0x00, 0x80⟩ [⟨0x00, 0x00, 0x00, 0x00⟩]
      (by decide) (by decide) (by decide)).2.1,
   (C10_timestamps_increase_across_overflow (fun _ => true) loop_state.initial
      [⟨0x00, 0x00, 0xff, 0x3f⟩] ⟨0x00, 0x00, 0x00, 0x80⟩ [⟨0x00, 0x00, 0x00, 0x00⟩]
      (by decide) (by decide) (by decide)).2.2.1⟩

/-! ## The bias payload -/

/-- The array `biases` written out: for every name the byte at `3 * address + 2`
repeats the byte at `3 * address + 1`. -/
theorem bias_payload_bytes (get_number : String → Nat) :
    bias_payload get_number =
      (name_to_address.map (fun name_and_address =>
        [to_uint8 (((get_number name_and_address.1 % 2 ^ 32) >>> 16) &&& 0xff),
         to_uint8 (((get_number name_and_address.1 % 2 ^ 32) >>> 8) &&& 0xff),
         to_uint8 (((get_number name_and_address.1 % 2 ^ 32) >>> 8) &&& 0xff)])).flatten := by
  simp [bias_payload, name_to_address, set_bias, List.replicate]

/-- C7, at the default parameters: the payload starts `00 07 07`, although the
bias at address 0 is `1992 = 0x0007c8`, whose low byte is `0xc8`; the three bytes
read back as `1799`. -/
theorem C7_low_byte_is_not_sent :
    bias_payload default_parameter =
        [0, 7, 7, 16, 233, 233, 255, 255, 255, 124, 127, 127, 0, 0, 0, 4, 185, 185,
         0, 3, 3, 255, 255, 255, 3, 52, 52, 0, 51, 51, 0, 1, 1, 0, 0, 0]
      ∧ default_parameter "first_stage_amplifier_cascode" = 1992
      ∧ (bias_payload default_parameter)[2]? = some 7
      ∧ to_uint8 (1992 &&& 0xff) = 200
      ∧ (0 * 65536 + 7 * 256 + 7 : Nat) ≠ 1992 := by
  decide

/-! ## The constructor -/

/-- When the device loop ends with `device_found`, the handle is open and the
interface claimed. -/
theorem find_device_found (serial : String) (ds : List usb_device) :
    ∀ (index : Nat) (st st1 : usb_state),
      find_device serial ds index st = (st1, Except.ok true) →
      st1.handle = true ∧ st1.interface = true ∧ st1.context = st.context
        ∧ st1.transfer = st.transfer ∧ st1.thread = st.thread := by
  induction ds with
  | nil =>
    intro index st st1 h
    simp [find_device] at h
  | cons d ds ih =>
    intro index st st1 h
    rw [find_device] at h
    dsimp only at h
    split at h
    · split at h
      · split at h
        · simp at h
        · rename_i hopen
          have hopen0 : 0 ≤ d.open_error := by
            unfold check_usb_error at hopen
            split at hopen
            · simp at hopen
            · omega
          split at h
          · rename_i hclaim
            split at h
            · have hst := (Prod.mk.inj h).1
              subst hst
              simp [hopen0, hclaim]
            · split at h
              · simp at h
              · split at h
                · have hst := (Prod.mk.inj h).1
                  subst hst
                  simp [hopen0, hclaim]
                · simpa using ih _ _ _ h
          · simpa using ih _ _ _ h
      · simpa using ih _ _ _ h
    · simpa using ih _ _ _ h

/-- Once a device is found, a failing `libusb_reset_device` or control transfer
makes the constructor throw with the context, the handle, the interface and the
transfer still held, and the thread not started. -/
theorem construct_setup_failure (bus : usb_bus) (serial : String) (get_number : String → Nat)
    (st1 : usb_state)
    (hinit : 0 ≤ bus.init_error)
    (hfind : find_device serial bus.devices 0
      { calls := [usb_call.libusb_init, usb_call.libusb_get_device_list], context := true,
        handle := false, interface := false, transfer := false, thread := false }
      = (st1, Except.ok true))
    (hfail : bus.reset_error < 0 ∨ bus.biases_transfer < 0 ∨ bus.start_transfer < 0) :
    ∃ (message : String) (error : Int),
      (construct bus serial get_number).2 = Except.error (construction_error.usb_error message error)
        ∧ (construct bus serial get_number).1.context = true
        ∧ (construct bus serial get_number).1.handle = true
        ∧ (construct bus serial get_number).1.interface = true
        ∧ (construct bus serial get_number).1.transfer = true
        ∧ (construct bus serial get_number).1.thread = false := by
  obtain ⟨hh, hi, hc, _, ht⟩ := find_device_found serial bus.devices 0 _ st1 hfind
  have hinit1 : ¬ bus.init_error < 0 := by omega
  simp only [construct, check_usb_error, usb_state.initial, hinit1, if_false, hinit,
    decide_True, List.singleton_append, hfind, Bool.not_true]
  by_cases h1 : bus.reset_error < 0
  · exact ⟨"resetting the device", bus.reset_error, by simp [h1, hh, hi, hc, ht]⟩
  · by_cases h2 : bus.biases_transfer < 0
    · exact ⟨"sending a control packet", bus.biases_transfer, by simp [h1, h2, hh, hi, hc, ht]⟩
    · have h3 : bus.start_transfer < 0 := by
        rcases hfail with h | h | h
        · exact absurd h h1
        · exact absurd h h2
        · exact h
      exact ⟨"starting the data flow", bus.start_transfer, by simp [h1, h2, h3, hh, hi, hc, ht]⟩

/-- C9, with one matching device that opens and claims and a failing
`libusb_reset_device` (`-1`): the constructor throws "resetting the device"
after eight calls, none of which releases anything; the context, the handle,
the interface and the transfer are still held, and the thread is not started. -/
theorem C9_failed_reset_keeps_resources :
    construct
        { init_error := 0
          devices := [{ descriptor_error := 0, idVendor := 5418, idProduct := 33792,
                        open_error := 0, claim_error := 0, bytes_read := 0, serial := "" }]
          reset_error := -1
          biases_transfer := 36
          start_transfer := 0 }
        "" default_parameter
      = ({ calls := [usb_call.libusb_init, usb_call.libusb_get_device_list,
                     usb_call.libusb_get_device_descriptor 0, usb_call.libusb_open 0,
                     usb_call.libusb_claim_interface 0, usb_call.libusb_free_device_list,
                     usb_call.libusb_alloc_transfer, usb_call.libusb_reset_device]
           context := true
           handle := true
           interface := true
           transfer := true
           thread := false },
         Except.error (construction_error.usb_error "resetting the device" (-1))) := by
  rfl

end dvs_sepia
